import Mathlib

/-!
Verification of the invoice-extraction pipeline (`src/google_client.py`,
`src/data_processor.py`) against its natural-language specification.

The Python code is shallowly embedded: a pandas DataFrame becomes a
`List Row` whose cells are `Option String` (`none` models a missing/NaN
cell), pure helper functions become Lean functions over `List Char` /
`String`, the file system touched by `generate_pdf` becomes an explicit
association list from paths to written documents, and the Google Drive
transport is an oracle record of `Except`-returning functions so that the
exception structure of `get_image_from_url` is visible.

String primitives mirror the CPython/pandas behaviour on ASCII input:
`pyStrip` is `str.strip`, `pyLower` is `str.lower`, `astypeStr` is
`Series.astype(str)` (NaN becomes the literal string "nan").  The regular
expressions appearing in the source are small and concrete, so each one is
embedded as a direct scanner over `List Char` with the same leftmost-match
semantics `re` uses for these patterns.
-/

/-- Python whitespace for `str.strip` and the regex class `\s` (ASCII range). -/
def pyIsSpace (c : Char) : Bool :=
  c = ' ' || c = '\t' || c = '\n' || c = '\r' || c = '\x0b' || c = '\x0c'

/-- `str.strip()` on the character list: drop leading and trailing whitespace. -/
def pyStripList (cs : List Char) : List Char :=
  ((cs.dropWhile pyIsSpace).reverse.dropWhile pyIsSpace).reverse

/-- `str.strip()`. -/
def pyStrip (s : String) : String := ⟨pyStripList s.data⟩

/-- `str.lower()` (ASCII case folding, as exercised by the source data). -/
def pyLower (s : String) : String := ⟨s.data.map Char.toLower⟩

/-- `Series.astype(str)` on one cell: a missing value (NaN) renders as "nan". -/
def astypeStr : Option String → String
  | none => "nan"
  | some s => s

/-- The `Invoice Timestamp` cell: raw as loaded, or overwritten by
`pd.to_datetime(..., errors='coerce')` (`none` inside `parsed` is NaT). -/
inductive TsCell
  | raw : Option String → TsCell
  | parsed : Option Nat → TsCell
deriving DecidableEq

/-- One spreadsheet row (`sheet.get_all_records()` record), restricted to the
columns the pipeline reads.  `none` models a missing/NaN cell. -/
structure Row where
  name : Option String
  approvalStatus : Option String
  invoiceStatus : Option String
  invoiceTimestamp : TsCell
  location : Option String
  invoiceNum : Option String
  workOrder : Option String
  total : Option String
  invoiceLink : Option String
deriving DecidableEq

/-- The three in-place column assignments at the top of
`GoogleClient.filter_invoice_data` (google_client.py lines 95-97): the
caller's DataFrame has these columns overwritten. -/
def normRow (r : Row) : Row :=
  { r with
    approvalStatus := some (pyLower (pyStrip (astypeStr r.approvalStatus)))
    invoiceStatus := some (pyStrip (astypeStr r.invoiceStatus))
    name := some (pyLower (pyStrip (astypeStr r.name))) }

/-- `approved_mask` (line 100): `df['Approval Status'].isin(['aprobado', 'approved'])`. -/
def approvedMask (r : Row) : Bool :=
  r.approvalStatus = some "aprobado" || r.approvalStatus = some "approved"

/-- `unpaid_mask` (lines 101-105): membership in `['', 'nan', 'None']`, the
(dead, post-`astype`) `isna()` check, and the whitespace-only re-strip. -/
def unpaidMask (r : Row) : Bool :=
  (r.invoiceStatus = some "" || r.invoiceStatus = some "nan" ||
    r.invoiceStatus = some "None")
  || r.invoiceStatus = none
  || (match r.invoiceStatus with
      | none => false
      | some s => pyStrip s = "")

/-- The combined boolean mask `approved_mask & unpaid_mask` (line 107). -/
def keepRow (r : Row) : Bool := approvedMask r && unpaidMask r

/-- `pd.to_datetime(..., errors='coerce')` on one cell, with the parser
abstracted as a parameter (`none` result is NaT). -/
def toTs (parse : String → Option Nat) : TsCell → Option Nat
  | .raw none => none
  | .raw (some s) => parse s
  | .parsed t => t

/-- The column overwrite `filtered_df['Invoice Timestamp'] = pd.to_datetime(...)`
(lines 111-113). -/
def convertTs (parse : String → Option Nat) (r : Row) : Row :=
  { r with invoiceTimestamp := .parsed (toTs parse r.invoiceTimestamp) }

/-- Sort key of a converted row. -/
def tsKey (r : Row) : Option Nat :=
  match r.invoiceTimestamp with
  | .parsed t => t
  | .raw _ => none

/-- Ascending comparison with NaT (`none`) last, the order
`sort_values('Invoice Timestamp')` produces (`na_position='last'`). -/
def tsLe (a b : Option Nat) : Bool :=
  match a, b with
  | some x, some y => x ≤ y
  | some _, none => true
  | none, some _ => false
  | none, none => true

/-- Insert a row into a list sorted by `tsKey`. -/
def insertSorted (r : Row) : List Row → List Row
  | [] => [r]
  | x :: xs => if tsLe (tsKey x) (tsKey r) then x :: insertSorted r xs else r :: x :: xs

/-- `filtered_df.sort_values('Invoice Timestamp')` (line 114).  The source
delegates to pandas with the default sort kind; this embedding fixes one
concrete sort producing the same ascending/NaT-last order.  Claims that
depend only on membership are insensitive to the choice; the tie-break
permutation of the library sort is not modelled. -/
def sortByTs : List Row → List Row
  | [] => []
  | r :: rs => insertSorted r (sortByTs rs)

/-- `GoogleClient.filter_invoice_data` (google_client.py lines 91-118).
First component: the caller's DataFrame after the call (the function
normalizes the three columns in place).  Second component: the returned
filtered-and-sorted frame.  `parse` abstracts `pd.to_datetime` on one cell. -/
def filter_invoice_data (parse : String → Option Nat) (df : List Row) :
    List Row × List Row :=
  let df1 := df.map normRow
  (df1, sortByTs ((df1.filter keepRow).map (convertTs parse)))

/-- The `re` metacharacters other than `.`: a pattern containing one of
these is outside the fragment this embedding models (for such a name the
program's `str.contains` follows full regex semantics, or raises
`re.error` on an ill-formed pattern such as "(", re-raised as the wrapped
exception of `filter_by_subcontractor`).  Theorems about the name filter
therefore hypothesize `regexMeta c = false` for the name's characters. -/
def regexMeta (c : Char) : Bool :=
  c = '^' || c = '$' || c = '*' || c = '+' || c = '?' || c = '{' || c = '}' ||
  c = '[' || c = ']' || c = '\\' || c = '|' || c = '(' || c = ')'

/-- Single pattern-vs-text character test for the regex fragment this
embedding models: patterns free of `regexMeta` characters.  Within that
fragment every pattern character is a literal except `.`, which matches
any character but a newline; matching is case-insensitive (`case=False`),
with the pattern already lower-cased by the caller. -/
def patCharMatch (p c : Char) : Bool :=
  if p = '.' then c != '\n' else Char.toLower c = p

/-- Match the whole pattern at the head of the text. -/
def patMatchAt : List Char → List Char → Bool
  | [], _ => true
  | _ :: _, [] => false
  | p :: ps, c :: cs => patCharMatch p c && patMatchAt ps cs

/-- `re.search(pat, text) is not None`: try the pattern at every position. -/
def reSearch (pat : List Char) : List Char → Bool
  | [] => patMatchAt pat []
  | c :: cs => patMatchAt pat (c :: cs) || reSearch pat cs

/-- `Series.str.contains(pat, case=False, na=False)` on one non-missing
cell: the pattern is a regular expression (`regex=True` is the pandas
default).  The embedded matcher is faithful for patterns free of
`regexMeta` characters (where only `.` has special meaning); the theorems
quantifying over names restrict themselves to that fragment. -/
def str_contains_regex (val : String) (pat : String) : Bool :=
  reSearch pat.data val.data

/-- `GoogleClient.filter_by_subcontractor` (google_client.py lines 120-131).
First component: the caller's DataFrame after the call (no column is
assigned, so it is returned unchanged).  Second component: the returned
filtered copy.  `na=False` excludes rows with a missing `Name`. -/
def filter_by_subcontractor (df : List Row) (subcontractor_name : String) :
    List Row × List Row :=
  (df, df.filter fun r =>
    match r.name with
    | none => false
    | some s => str_contains_regex s (pyLower subcontractor_name))

/-- Case-insensitive literal prefix test (pattern given lower-cased). -/
def stripLitCI : List Char → List Char → Option (List Char)
  | [], cs => some cs
  | _ :: _, [] => none
  | p :: ps, c :: cs => if Char.toLower c = p then stripLitCI ps cs else none

/-- Consume exactly `n` ASCII digits (the regex `\d{5}` with `n = 5`). -/
def dropDigits : Nat → List Char → Option (List Char)
  | 0, cs => some cs
  | _ + 1, [] => none
  | n + 1, c :: cs => if c.isDigit then dropDigits n cs else none

/-- The trailing `.*`: greedily consume up to (excluding) the next newline. -/
def dropTillNl : List Char → List Char
  | [] => []
  | c :: cs => if c = '\n' then c :: cs else dropTillNl cs

/-- Try the `process_location` pattern
`,\s*Washington,\s*District of Columbia\s*\d{5}.*` (google_client.py
line 139, compiled with `re.IGNORECASE`) at the head of the text; on
success return the unconsumed remainder.  Each `\s*` is maximal-munch,
which coincides with the backtracking semantics because whitespace is
disjoint from the letter/digit that must follow. -/
def matchPat (cs : List Char) : Option (List Char) :=
  match cs with
  | ',' :: rest =>
    match stripLitCI "washington,".data (rest.dropWhile pyIsSpace) with
    | none => none
    | some r2 =>
      match stripLitCI "district of columbia".data (r2.dropWhile pyIsSpace) with
      | none => none
      | some r3 =>
        match dropDigits 5 (r3.dropWhile pyIsSpace) with
        | none => none
        | some r4 => some (dropTillNl r4)
  | _ => none

/-- `re.sub` with the above pattern and empty replacement: scan left to
right, replace every non-overlapping match, resume after the match.  The
fuel argument (initialised to the text length, which dominates the scan)
keeps the recursion structural. -/
def reSubAux : Nat → List Char → List Char
  | 0, _ => []
  | _ + 1, [] => []
  | fuel + 1, c :: rest =>
    match matchPat (c :: rest) with
    | some rem => reSubAux fuel rem
    | none => c :: reSubAux fuel rest

/-- `re.sub(pattern, '', text, flags=re.IGNORECASE)` for the location pattern. -/
def reSub (cs : List Char) : List Char := reSubAux cs.length cs

/-- `GoogleClient.process_location` (google_client.py lines 133-141). -/
def process_location (location : Option String) : String :=
  match location with
  | none => ""
  | some s => if s = "" then "" else pyStrip ⟨reSub s.data⟩

/-- Index of the leftmost position where the location pattern matches. -/
def firstMatchIdx : List Char → Option Nat
  | [] => none
  | c :: rest =>
    if (matchPat (c :: rest)).isSome then some 0
    else (firstMatchIdx rest).map (· + 1)

/-- Characters admitted by the file-id capture class `[a-zA-Z0-9-_]`. -/
def idChar (c : Char) : Bool := c.isAlphanum || c = '-' || c = '_'

/-- Case-sensitive literal prefix test. -/
def stripLit : List Char → List Char → Option (List Char)
  | [], cs => some cs
  | _ :: _, [] => none
  | p :: ps, c :: cs => if c = p then stripLit ps cs else none

/-- Generic scanner for the two file-id regexes of `get_image_from_url`:
find the leftmost position whose character satisfies `trig`, followed by
the literal `lit`, followed by a non-empty maximal run of `idChar`
(the `+`-quantified capture group); return that run. -/
def findTok (trig : Char → Bool) (lit : List Char) : List Char → Option (List Char)
  | [] => none
  | c :: rest =>
    if trig c then
      match stripLit lit rest with
      | some rem =>
        let run := rem.takeWhile idChar
        if run.isEmpty then findTok trig lit rest else some run
      | none => findTok trig lit rest
    else findTok trig lit rest

/-- `re.search(r'[?&]id=([a-zA-Z0-9-_]+)', url)` (google_client.py line 180). -/
def findIdParam : List Char → Option (List Char) :=
  findTok (fun c => c = '?' || c = '&') ['i', 'd', '=']

/-- `re.search(r'/d/([a-zA-Z0-9-_]+)', url)` (google_client.py line 185). -/
def findDSeg : List Char → Option (List Char) :=
  findTok (fun c => c = '/') ['d', '/']

/-- Lines 172-174 of google_client.py: `url = str(url).strip()` then drop a
single leading `@`. -/
def cleanUrlL (cs : List Char) : List Char :=
  match pyStripList cs with
  | '@' :: rest => rest
  | t => t

/-- String-level wrapper for `cleanUrlL`. -/
def cleanUrl (s : String) : String := ⟨cleanUrlL s.data⟩

/-- The file-id extraction of `get_image_from_url` (google_client.py lines
170-191): clean the reference, try the query-parameter shape first, then
the `/d/` path shape. -/
def extract_file_id (s : String) : Option String :=
  match findIdParam (cleanUrl s).data with
  | some r => some ⟨r⟩
  | none => (findDSeg (cleanUrl s).data).map fun r => (⟨r⟩ : String)

/-- A decoded PIL image, reduced to its pixel dimensions. -/
structure PImage where
  w : Nat
  h : Nat
deriving DecidableEq

/-- Oracle for the Google Drive transport and image decoding used by
`get_image_from_url`: `getFile` is `files().get(...).execute()`,
`getMedia` the chunked download, `openImage` is `PIL.Image.open`.  An
`Except.error` models the exception each call may raise. -/
structure DriveEnv where
  getFile : String → Except String Unit
  getMedia : String → Except String (List Nat)
  openImage : List Nat → Except String PImage

/-- The inner `try` of `get_image_from_url` (google_client.py lines
194-224): metadata fetch, download, decode; any raised exception is caught
and absorbed to `None`. -/
def drive_fetch (env : DriveEnv) (fid : String) : Option PImage :=
  match (do
      let _ ← env.getFile fid
      let bytes ← env.getMedia fid
      env.openImage bytes : Except String PImage) with
  | .ok img => some img
  | .error _ => none

/-- The body of the outer `try` of `get_image_from_url` (lines 168-224). -/
def get_image_body (env : DriveEnv) (url : Option String) :
    Except String (Option PImage) :=
  match url with
  | none => .ok none
  | some u =>
    if u = "" then .ok none
    else
      match extract_file_id u with
      | none => .ok none
      | some fid => .ok (drive_fetch env fid)

/-- `GoogleClient.get_image_from_url` (google_client.py lines 165-228): the
outer `except Exception` absorbs any escaping exception to `None`. -/
def get_image_from_url (env : DriveEnv) (url : Option String) :
    Except String (Option PImage) :=
  match get_image_body env url with
  | .ok r => .ok r
  | .error _ => .ok none

/-- One display row after `prepare_display_data`: the five projected
columns, with `Total` already coerced to a number (0 on parse failure). -/
structure DisplayRow where
  location : String
  invoiceNum : String
  workOrder : String
  total : Rat
  invoiceLink : Option String
deriving DecidableEq

/-- Two-digit zero padding. -/
def pad2 (n : Nat) : String := if n < 10 then "0" ++ toString n else toString n

/-- The format `f"{x:.2f}"` on the exact rational value (round half away
from zero at the second decimal; the claims only exercise exact cents). -/
def fmt2 (q : Rat) : String :=
  let cents : Nat := (q.num.natAbs * 100 + q.den / 2) / q.den
  (if q < 0 then "-" else "") ++ toString (cents / 100) ++ "." ++ pad2 (cents % 100)

/-- The format `f"${x:.2f}"` used for table cells and the total row. -/
def fmtMoney (q : Rat) : String := "$" ++ fmt2 q

/-- One table cell: plain text, or the `<a href=...>View Invoice</a>`
paragraph built for a non-empty link. -/
inductive PdfCell
  | text : String → PdfCell
  | linkPara : String → PdfCell
deriving DecidableEq

/-- `DataProcessor.get_table_data_for_pdf` (data_processor.py lines 33-71):
empty input yields an empty list; otherwise header row, one row per
display row, and a trailing total row. -/
def get_table_data_for_pdf (rows : List DisplayRow) : List (List PdfCell) :=
  match rows with
  | [] => []
  | _ =>
    let headers : List PdfCell :=
      [.text "Location", .text "Invoice #", .text "WO #", .text "Total",
       .text "Invoice Link"]
    let body := rows.map fun r =>
      let link : PdfCell :=
        match r.invoiceLink with
        | none => .text "No Link"
        | some u => if u = "" then .text "No Link" else .linkPara u
      [PdfCell.text r.location, .text r.invoiceNum, .text r.workOrder,
       .text (fmtMoney r.total), link]
    let totalSum := (rows.map DisplayRow.total).sum
    headers :: body ++ [[.text "", .text "", .text "", .text "TOTAL:",
      .text (fmtMoney totalSum)]]

/-- One flowable of the reportlab story. -/
inductive PdfElem
  | title : String → PdfElem
  | spacer : PdfElem
  | para : String → PdfElem
  | table : List (List PdfCell) → PdfElem
  | image : Rat → Rat → PdfElem
deriving DecidableEq

/-- Python `str.title()` (ASCII): upper-case a letter that follows a
non-letter, lower-case a letter that follows a letter. -/
def pyTitleAux : Bool → List Char → List Char
  | _, [] => []
  | prevAlpha, c :: cs =>
    (if c.isAlpha then (if prevAlpha then c.toLower else c.toUpper) else c)
      :: pyTitleAux c.isAlpha cs

/-- Python `str.title()`. -/
def pyTitle (s : String) : String := ⟨pyTitleAux false s.data⟩

/-- The per-image loop of `generate_pdf` (data_processor.py lines 195-240):
skip `None` entries, optimize (abstracted as `optimize`, `none` modelling
the skip on optimization failure), then append a spacer and the image
scaled to fit 7in x 9in. -/
def imageStory (optimize : PImage → Option PImage)
    (images : List (Option PImage)) : List PdfElem :=
  (images.map fun oimg =>
    match oimg with
    | none => []
    | some img =>
      match optimize img with
      | none => []
      | some oi =>
        let scale : Rat := min ((7 * 72 : Rat) / (oi.w : Rat)) ((9 * 72 : Rat) / (oi.h : Rat))
        [PdfElem.spacer, PdfElem.image ((oi.w : Rat) * scale) ((oi.h : Rat) * scale)]).flatten

/-- File system touched by `generate_pdf`: written path ↦ written story.
Writing prepends, and `fsRead` takes the most recent entry, so a write to
an existing path shadows (replaces) the old content. -/
def FS : Type := List (String × List PdfElem)

/-- `SimpleDocTemplate(filepath); doc.build(story)`: an unconditional write. -/
def fsWrite (fs : FS) (path : String) (doc : List PdfElem) : FS := (path, doc) :: fs

/-- Read back the current content at a path. -/
def fsRead (fs : FS) (path : String) : Option (List PdfElem) :=
  match fs with
  | [] => none
  | (p, d) :: rest => if p = path then some d else fsRead rest path

/-- The reportlab story `generate_pdf` assembles (data_processor.py lines
158-240): title, generation date, the table block (skipped when the frame
is empty), then the image flowables. -/
def pdfStory (optimize : PImage → Option PImage) (nowStr : String)
    (display_rows : List DisplayRow) (images : List (Option PImage))
    (subcontractor_name : String) : List PdfElem :=
  [PdfElem.title ("Invoice Summary - " ++ pyTitle subcontractor_name),
   PdfElem.spacer,
   PdfElem.para ("Generated: " ++ nowStr),
   PdfElem.spacer]
  ++ (match display_rows with
      | [] => []
      | _ => [PdfElem.table (get_table_data_for_pdf display_rows)])
  ++ imageStory optimize images

/-- `DataProcessor.generate_pdf` (data_processor.py lines 139-251).
`today` is `datetime.now().strftime("%Y-%m-%d")`, `nowStr` the longer
timestamp of the `Generated:` line, both abstracted as parameters; the
result is the file system after `doc.build` plus the returned filepath. -/
def generate_pdf (optimize : PImage → Option PImage) (today nowStr : String)
    (display_rows : List DisplayRow) (images : List (Option PImage))
    (subcontractor_name : String) (output_dir : String) (fs : FS) :
    FS × String :=
  let filepath :=
    output_dir ++ "/" ++ (subcontractor_name ++ "_Invoice_" ++ today ++ ".pdf")
  (fsWrite fs filepath (pdfStory optimize nowStr display_rows images
    subcontractor_name), filepath)

/-- Does the story contain a table flowable? -/
def hasTableElem (l : List PdfElem) : Bool :=
  l.any fun e =>
    match e with
    | .table _ => true
    | _ => false

/-- Does the story contain a table holding a cell with the given text? -/
def hasCellText (l : List PdfElem) (s : String) : Bool :=
  l.any fun e =>
    match e with
    | .table data => data.any fun row => row.any fun cell => cell = PdfCell.text s
    | _ => false

/-- Case-insensitive literal substring containment - the relation the
specification's words describe for `filter_by_subcontractor` (the source
instead hands the name to a regular-expression search). -/
def isPrefixOfL : List Char → List Char → Bool
  | [], _ => true
  | _ :: _, [] => false
  | p :: ps, c :: cs => (p = c) && isPrefixOfL ps cs

/-- Literal (non-regex) substring test. -/
def containsSubL (pat : List Char) : List Char → Bool
  | [] => isPrefixOfL pat []
  | c :: cs => isPrefixOfL pat (c :: cs) || containsSubL pat cs

/-- Modelled from the spec: "contains `name` as a case-insensitive
substring" - the comparator the claim about `filter_by_subcontractor`
asserts, used to exhibit where the source's regex semantics departs from
it. -/
def containsSubstringCI (hay pat : String) : Bool :=
  containsSubL (pyLower pat).data (pyLower hay).data

/-- A timestamp parser instance for concrete evaluations: parses nothing. -/
def parse0 : String → Option Nat := fun _ => none

/-- An optimizer instance for concrete evaluations: the identity. -/
def optId : PImage → Option PImage := fun i => some i

/-- A drive oracle whose every call fails, for concrete evaluations. -/
def env0 : DriveEnv :=
  ⟨fun _ => .error "404 Not Found", fun _ => .error "404 Not Found",
   fun _ => .error "cannot identify image file"⟩

/-- Concrete row with a non-normalized approval status. -/
def rowA : Row :=
  { name := some "Frank"
    approvalStatus := some "Approved"
    invoiceStatus := some ""
    invoiceTimestamp := .raw none
    location := none
    invoiceNum := none
    workOrder := none
    total := none
    invoiceLink := none }

/-- Concrete row whose `Name` is the single letter "x". -/
def rowX : Row :=
  { name := some "x"
    approvalStatus := none
    invoiceStatus := none
    invoiceTimestamp := .raw none
    location := none
    invoiceNum := none
    workOrder := none
    total := none
    invoiceLink := none }

/-- Concrete display row totalling 5. -/
def rowD5 : DisplayRow :=
  { location := "12 Oak St", invoiceNum := "17", workOrder := "9"
    total := 5, invoiceLink := none }

/-- The matched-both-shapes predicate for the `findTok` scanners: the text
contains a trigger character, the literal, and at least one id character. -/
def containsTokP (trig : Char → Bool) (lit : List Char) (cs : List Char) : Prop :=
  ∃ a q c b, cs = a ++ q :: (lit ++ c :: b) ∧ trig q = true ∧ idChar c = true

/-- The story `generate_pdf` assembles for empty input at one concrete
title/date instantiation. -/
def emptyReportStory : List PdfElem :=
  [PdfElem.title "Invoice Summary - Frank", PdfElem.spacer,
   PdfElem.para "Generated: 2026-10-12 12:00", PdfElem.spacer]

theorem list_map_eq_self_iff {α : Type} (f : α → α) (l : List α) :
    l.map f = l ↔ ∀ a ∈ l, f a = a := by
  induction l with
  | nil => simp
  | cons x xs ih => simp [ih]

theorem dropWhile_dropWhile (p : Char → Bool) (l : List Char) :
    (l.dropWhile p).dropWhile p = l.dropWhile p := by
  induction l with
  | nil => rfl
  | cons c cs ih =>
    by_cases h : p c <;> simp [List.dropWhile_cons, h, ih]

theorem dropWhile_head_not (p : Char → Bool) (l : List Char) (c : Char)
    (t : List Char) (h : l.dropWhile p = c :: t) : p c = false := by
  induction l with
  | nil => exact absurd h (by simp)
  | cons x xs ih =>
    by_cases hx : p x
    · rw [List.dropWhile_cons, if_pos hx] at h
      exact ih h
    · rw [List.dropWhile_cons, if_neg hx] at h
      obtain ⟨rfl, -⟩ := List.cons.injEq .. ▸ h
      simpa using hx

theorem pyStripList_idem (cs : List Char) :
    pyStripList (pyStripList cs) = pyStripList cs := by
  have h1 : (pyStripList cs).dropWhile pyIsSpace = pyStripList cs := by
    cases hwr : pyStripList cs with
    | nil => rfl
    | cons c t =>
      obtain ⟨u, hu⟩ :=
        List.dropWhile_suffix (l := (cs.dropWhile pyIsSpace).reverse) pyIsSpace
      have hd2 : cs.dropWhile pyIsSpace = pyStripList cs ++ u.reverse := by
        have := congrArg List.reverse hu
        simpa [pyStripList] using this.symm
      rw [hwr] at hd2
      have hc : pyIsSpace c = false :=
        dropWhile_head_not pyIsSpace cs c (t ++ u.reverse) (by simpa using hd2)
      rw [List.dropWhile_cons, if_neg (by simp [hc])]
  show ((((pyStripList cs).dropWhile pyIsSpace).reverse).dropWhile pyIsSpace).reverse
      = pyStripList cs
  rw [h1]
  show (((((cs.dropWhile pyIsSpace).reverse.dropWhile pyIsSpace).reverse).reverse).dropWhile
      pyIsSpace).reverse = pyStripList cs
  rw [List.reverse_reverse, dropWhile_dropWhile]
  rfl

theorem pyStrip_idem (s : String) : pyStrip (pyStrip s) = pyStrip s :=
  congrArg String.mk (pyStripList_idem s.data)

theorem insertSorted_perm (r : Row) (l : List Row) :
    List.Perm (insertSorted r l) (r :: l) := by
  induction l with
  | nil => rfl
  | cons x xs ih =>
    by_cases h : tsLe (tsKey x) (tsKey r)
    · simpa [insertSorted, h] using (ih.cons x).trans (List.Perm.swap r x xs)
    · simp [insertSorted, h]

theorem sortByTs_perm (l : List Row) : List.Perm (sortByTs l) l := by
  induction l with
  | nil => rfl
  | cons r rs ih => exact (insertSorted_perm r (sortByTs rs)).trans (ih.cons r)

theorem keep_normRow_iff (r0 : Row) :
    keepRow (normRow r0) = true ↔
      ((pyLower (pyStrip (astypeStr r0.approvalStatus)) = "approved" ∨
        pyLower (pyStrip (astypeStr r0.approvalStatus)) = "aprobado") ∧
       (pyStrip (astypeStr r0.invoiceStatus) = "" ∨
        pyStrip (astypeStr r0.invoiceStatus) = "nan" ∨
        pyStrip (astypeStr r0.invoiceStatus) = "None")) := by
  have hid : pyStrip (pyStrip (astypeStr r0.invoiceStatus)) =
      pyStrip (astypeStr r0.invoiceStatus) := pyStrip_idem _
  simp only [keepRow, approvedMask, unpaidMask, normRow, Bool.and_eq_true,
    Bool.or_eq_true, decide_eq_true_eq, Option.some.injEq, hid,
    reduceCtorEq]
  tauto

/-- C1: `filter_invoice_data` keeps a row iff its `Approval Status`,
lower-cased and trimmed, is "approved" or "aprobado", and its `Invoice
Status`, trimmed after `astype(str)` (so a missing value renders as "nan",
and whitespace-only trims to empty), is "", "nan", or "None"; the output
rows are the normalized (and timestamp-converted) images of exactly those
input rows, and consequently no row with any other approval value or any
other non-blank invoice status appears in the output. -/
theorem filter_approved_unpaid_keeps_iff (parse : String → Option Nat)
    (df : List Row) :
    (∀ r' : Row, r' ∈ (filter_invoice_data parse df).2 ↔
      ∃ r0 ∈ df, r' = convertTs parse (normRow r0) ∧
        (pyLower (pyStrip (astypeStr r0.approvalStatus)) = "approved" ∨
         pyLower (pyStrip (astypeStr r0.approvalStatus)) = "aprobado") ∧
        (pyStrip (astypeStr r0.invoiceStatus) = "" ∨
         pyStrip (astypeStr r0.invoiceStatus) = "nan" ∨
         pyStrip (astypeStr r0.invoiceStatus) = "None")) ∧
    (∀ r' ∈ (filter_invoice_data parse df).2,
      (r'.approvalStatus = some "approved" ∨ r'.approvalStatus = some "aprobado") ∧
      (r'.invoiceStatus = some "" ∨ r'.invoiceStatus = some "nan" ∨
       r'.invoiceStatus = some "None")) := by
  have main : ∀ r' : Row, r' ∈ (filter_invoice_data parse df).2 ↔
      ∃ r0 ∈ df, r' = convertTs parse (normRow r0) ∧
        (pyLower (pyStrip (astypeStr r0.approvalStatus)) = "approved" ∨
         pyLower (pyStrip (astypeStr r0.approvalStatus)) = "aprobado") ∧
        (pyStrip (astypeStr r0.invoiceStatus) = "" ∨
         pyStrip (astypeStr r0.invoiceStatus) = "nan" ∨
         pyStrip (astypeStr r0.invoiceStatus) = "None") := by
    intro r'
    show r' ∈ sortByTs (((df.map normRow).filter keepRow).map (convertTs parse)) ↔ _
    rw [(sortByTs_perm _).mem_iff, List.mem_map]
    constructor
    · rintro ⟨r1, hr1, rfl⟩
      rw [List.mem_filter] at hr1
      obtain ⟨hmem, hkeep⟩ := hr1
      rw [List.mem_map] at hmem
      obtain ⟨r0, hr0, rfl⟩ := hmem
      obtain ⟨hap, hst⟩ := (keep_normRow_iff r0).mp hkeep
      exact ⟨r0, hr0, rfl, hap, hst⟩
    · rintro ⟨r0, hr0, rfl, hap, hst⟩
      exact ⟨normRow r0,
        List.mem_filter.mpr ⟨List.mem_map.mpr ⟨r0, hr0, rfl⟩,
          (keep_normRow_iff r0).mpr ⟨hap, hst⟩⟩, rfl⟩
  refine ⟨main, ?_⟩
  intro r' hr'
  obtain ⟨r0, -, rfl, hap, hst⟩ := (main r').mp hr'
  constructor
  · rcases hap with h | h <;> simp [convertTs, normRow, h]
  · rcases hst with h | h | h <;> simp [convertTs, normRow, h]

/-- Witness for C1 at a concrete input: the single approved, unpaid row of
`[rowA]` survives and carries a normalized approval/invoice status. -/
theorem filter_approved_unpaid_keeps_iff_witness :
    ((convertTs parse0 (normRow rowA)).approvalStatus = some "approved" ∨
     (convertTs parse0 (normRow rowA)).approvalStatus = some "aprobado") ∧
    ((convertTs parse0 (normRow rowA)).invoiceStatus = some "" ∨
     (convertTs parse0 (normRow rowA)).invoiceStatus = some "nan" ∨
     (convertTs parse0 (normRow rowA)).invoiceStatus = some "None") :=
  (filter_approved_unpaid_keeps_iff parse0 [rowA]).2
    (convertTs parse0 (normRow rowA)) (by decide)

/-- C5 counterexample: `filter_invoice_data` does not leave its input
unchanged - on a frame holding the single row `rowA` (approval status
"Approved"), the caller's frame after the call differs from the input. -/
theorem filter_invoice_data_mutates_cex :
    (filter_invoice_data parse0 [rowA]).1 ≠ [rowA] := by decide

/-- C5 amended: `filter_by_subcontractor` returns a new sequence and leaves
its input unchanged, but `filter_invoice_data` normalizes the caller's
rows in place (trim/lower-case `Approval Status` and `Name`, trim `Invoice
Status`, stringifying missing cells), so its input is unchanged exactly
when every row was already in normalized form; the rows it returns are
fresh copies. -/
theorem filter_purity_amended (parse : String → Option Nat) (df : List Row)
    (name : String) :
    (filter_by_subcontractor df name).1 = df ∧
    ((filter_invoice_data parse df).1 = df ↔ ∀ r ∈ df, normRow r = r) := by
  refine ⟨rfl, ?_⟩
  show df.map normRow = df ↔ _
  exact list_map_eq_self_iff normRow df

theorem fsRead_write_self (fs : FS) (p : String) (d : List PdfElem) :
    fsRead (fsWrite fs p d) p = some d := by
  simp [fsRead, fsWrite]

/-- C3 counterexample: a report generated from an empty display frame and
zero images contains no table flowable at all, hence no "$0.00" total
cell - the claim that the table total "$0.00" is rendered fails. -/
theorem generate_pdf_empty_no_total_cex :
    fsRead (generate_pdf optId "2026-10-12" "2026-10-12 12:00" [] [] "frank"
        "pdfs" []).1 "pdfs/frank_Invoice_2026-10-12.pdf" =
      some emptyReportStory ∧
    hasTableElem emptyReportStory = false ∧
    hasCellText emptyReportStory "$0.00" = false := by decide

/-- C3 amended: `generate_pdf` on an empty DisplayRow sequence and zero
images succeeds and writes a PDF, but that PDF consists only of the title
and generation-date paragraph: `get_table_data_for_pdf` returns an empty
table and `generate_pdf` skips the table block entirely for an empty
frame, so no total row appears - even though the numeric sum of the empty
input is zero and would format as "$0.00". -/
theorem generate_pdf_empty_amended (optimize : PImage → Option PImage)
    (today nowStr name dir : String) (fs : FS) :
    get_table_data_for_pdf [] = [] ∧
    fmtMoney (([] : List DisplayRow).map DisplayRow.total).sum = "$0.00" ∧
    fsRead (generate_pdf optimize today nowStr [] [] name dir fs).1
        (generate_pdf optimize today nowStr [] [] name dir fs).2 =
      some [PdfElem.title ("Invoice Summary - " ++ pyTitle name), PdfElem.spacer,
            PdfElem.para ("Generated: " ++ nowStr), PdfElem.spacer] ∧
    hasTableElem [PdfElem.title ("Invoice Summary - " ++ pyTitle name),
      PdfElem.spacer, PdfElem.para ("Generated: " ++ nowStr), PdfElem.spacer]
      = false := by
  have hsplit : generate_pdf optimize today nowStr [] [] name dir fs =
      (fsWrite fs (dir ++ "/" ++ (name ++ "_Invoice_" ++ today ++ ".pdf"))
        (pdfStory optimize nowStr [] [] name),
       dir ++ "/" ++ (name ++ "_Invoice_" ++ today ++ ".pdf")) := rfl
  refine ⟨rfl, by decide, ?_, rfl⟩
  rw [hsplit]
  simp only [fsRead_write_self]
  simp [pdfStory, imageStory]

/-- C4 counterexample: generating a second report on the same day for the
same subcontractor silently replaces the first one - after the second
call the path holds the new (different) document, so the file written by
the first invocation is overwritten. -/
theorem generate_pdf_overwrite_cex :
    fsRead ((generate_pdf optId "2026-10-12" "13:00" [] [] "frank" "pdfs"
        ((generate_pdf optId "2026-10-12" "12:00" [rowD5] [] "frank" "pdfs"
          []).1)).1) "pdfs/frank_Invoice_2026-10-12.pdf" ≠
      fsRead ((generate_pdf optId "2026-10-12" "12:00" [rowD5] [] "frank"
        "pdfs" []).1) "pdfs/frank_Invoice_2026-10-12.pdf" ∧
    (fsRead ((generate_pdf optId "2026-10-12" "12:00" [rowD5] [] "frank"
        "pdfs" []).1) "pdfs/frank_Invoice_2026-10-12.pdf").isSome = true := by
  constructor
  · decide
  · decide

/-- C4 amended: `generate_pdf` writes to the deterministic path
`<output_dir>/<subcontractor>_Invoice_<today>.pdf` unconditionally: the
path and the content written there do not depend on what the file system
already holds at that path, so a same-day re-invocation silently replaces
the existing report; no collision check or error occurs. -/
theorem generate_pdf_overwrites_amended (optimize : PImage → Option PImage)
    (today nowStr : String) (rows : List DisplayRow)
    (images : List (Option PImage)) (name dir : String) (fs : FS) :
    (generate_pdf optimize today nowStr rows images name dir fs).2 =
      dir ++ "/" ++ (name ++ "_Invoice_" ++ today ++ ".pdf") ∧
    fsRead (generate_pdf optimize today nowStr rows images name dir fs).1
        (generate_pdf optimize today nowStr rows images name dir fs).2 =
      fsRead (generate_pdf optimize today nowStr rows images name dir []).1
        (generate_pdf optimize today nowStr rows images name dir []).2 ∧
    (fsRead (generate_pdf optimize today nowStr rows images name dir fs).1
        (generate_pdf optimize today nowStr rows images name dir fs).2).isSome
      = true := by
  have hsplit : ∀ g : FS, generate_pdf optimize today nowStr rows images name dir g =
      (fsWrite g (dir ++ "/" ++ (name ++ "_Invoice_" ++ today ++ ".pdf"))
        (pdfStory optimize nowStr rows images name),
       dir ++ "/" ++ (name ++ "_Invoice_" ++ today ++ ".pdf")) := fun _ => rfl
  refine ⟨rfl, ?_, ?_⟩
  · rw [hsplit fs, hsplit []]
    simp only [fsRead_write_self]
  · rw [hsplit fs]
    simp only [fsRead_write_self]
    rfl

theorem get_image_body_ok (env : DriveEnv) (url : Option String) :
    ∃ r, get_image_body env url = Except.ok r := by
  cases url with
  | none => exact ⟨none, rfl⟩
  | some u =>
    by_cases hu : u = ""
    · exact ⟨none, by simp [get_image_body, hu]⟩
    · cases hx : extract_file_id u with
      | none => exact ⟨none, by simp [get_image_body, hu, hx]⟩
      | some fid =>
        exact ⟨drive_fetch env fid, by simp [get_image_body, hu, hx]⟩

/-- C6: `get_image_from_url` never raises - for every transport oracle and
reference string the result is an `Except.ok`; an empty or missing
reference, a reference from which no file id can be extracted, and a
reference whose Drive metadata call fails (e.g. not-found/forbidden) all
yield `none` rather than an error, so one bad reference cannot abort a
batch. -/
theorem get_image_from_url_never_raises (env : DriveEnv) (url : Option String) :
    (∃ r, get_image_from_url env url = Except.ok r) ∧
    (∀ e, get_image_from_url env url ≠ Except.error e) ∧
    (url = none ∨ url = some "" → get_image_from_url env url = Except.ok none) ∧
    (∀ s, url = some s → s ≠ "" → extract_file_id s = none →
      get_image_from_url env url = Except.ok none) ∧
    (∀ s fid e, url = some s → s ≠ "" → extract_file_id s = some fid →
      env.getFile fid = Except.error e →
      get_image_from_url env url = Except.ok none) := by
  obtain ⟨r, hr⟩ := get_image_body_ok env url
  refine ⟨⟨r, by simp [get_image_from_url, hr]⟩, ?_, ?_, ?_, ?_⟩
  · intro e he
    rw [get_image_from_url, hr] at he
    exact Except.noConfusion he
  · rintro (rfl | rfl) <;> rfl
  · rintro s rfl hs hx
    simp [get_image_from_url, get_image_body, hs, hx]
  · rintro s fid e rfl hs hx he
    simp only [get_image_from_url, get_image_body, hs, hx, drive_fetch, he,
      if_neg]
    rfl

/-- Witness for C6: against an oracle whose every Drive call fails with a
404 error, a well-formed reference still yields `Except.ok none`. -/
theorem get_image_from_url_never_raises_witness :
    get_image_from_url env0 (some "https://host/open?id=ABC123") =
      Except.ok none :=
  (get_image_from_url_never_raises env0
      (some "https://host/open?id=ABC123")).2.2.2.2
    "https://host/open?id=ABC123" "ABC123" "404 Not Found" rfl (by decide)
    (by decide) rfl

theorem stripLitCI_suffix (ps : List Char) :
    ∀ cs r : List Char, stripLitCI ps cs = some r → r <:+ cs := by
  induction ps with
  | nil =>
    intro cs r h
    obtain rfl : cs = r := by simpa [stripLitCI] using h
    exact List.suffix_refl _
  | cons p ps ih =>
    intro cs r h
    cases cs with
    | nil => exact absurd h (by simp [stripLitCI])
    | cons c cs' =>
      by_cases hc : Char.toLower c = p
      · rw [stripLitCI, if_pos hc] at h
        exact (ih cs' r h).trans (List.suffix_cons c cs')
      · rw [stripLitCI, if_neg hc] at h
        exact absurd h (by simp)

theorem dropDigits_suffix (n : Nat) :
    ∀ cs r : List Char, dropDigits n cs = some r → r <:+ cs := by
  induction n with
  | zero =>
    intro cs r h
    obtain rfl : cs = r := by simpa [dropDigits] using h
    exact List.suffix_refl _
  | succ n ih =>
    intro cs r h
    cases cs with
    | nil => exact absurd h (by simp [dropDigits])
    | cons c cs' =>
      by_cases hc : c.isDigit
      · rw [dropDigits, if_pos hc] at h
        exact (ih cs' r h).trans (List.suffix_cons c cs')
      · rw [dropDigits, if_neg hc] at h
        exact absurd h (by simp)

theorem dropTillNl_suffix (cs : List Char) : dropTillNl cs <:+ cs := by
  induction cs with
  | nil => exact List.suffix_refl []
  | cons c cs' ih =>
    by_cases hc : c = '\n'
    · rw [dropTillNl, if_pos hc]
    · rw [dropTillNl, if_neg hc]
      exact ih.trans (List.suffix_cons c cs')

theorem dropTillNl_shape (cs : List Char) :
    dropTillNl cs = [] ∨ ∃ t, dropTillNl cs = '\n' :: t := by
  induction cs with
  | nil => exact Or.inl rfl
  | cons c cs' ih =>
    by_cases hc : c = '\n'
    · subst hc
      exact Or.inr ⟨cs', by rw [dropTillNl, if_pos rfl]⟩
    · rw [dropTillNl, if_neg hc]
      exact ih

theorem matchPat_not_comma {c : Char} (rest : List Char) (hc : c ≠ ',') :
    matchPat (c :: rest) = none := by
  rw [matchPat.eq_def]
  split
  · rename_i heq
    exfalso
    cases heq
    exact hc rfl
  · rfl

theorem matchPat_some_props (c : Char) (rest rem : List Char)
    (h : matchPat (c :: rest) = some rem) :
    rem <:+ rest ∧ (rem = [] ∨ ∃ t, rem = '\n' :: t) := by
  by_cases hc : c = ','
  · subst hc
    rw [matchPat] at h
    split at h
    · exact absurd h (by simp)
    · rename_i r2 h1
      split at h
      · exact absurd h (by simp)
      · rename_i r3 h2
        split at h
        · exact absurd h (by simp)
        · rename_i r4 h3
          obtain rfl : dropTillNl r4 = rem := by simpa using h
          have s1 : r2 <:+ rest :=
            (stripLitCI_suffix _ _ _ h1).trans (List.dropWhile_suffix pyIsSpace)
          have s2 : r3 <:+ rest :=
            ((stripLitCI_suffix _ _ _ h2).trans
              (List.dropWhile_suffix pyIsSpace)).trans s1
          have s3 : r4 <:+ rest :=
            ((dropDigits_suffix _ _ _ h3).trans
              (List.dropWhile_suffix pyIsSpace)).trans s2
          exact ⟨(dropTillNl_suffix r4).trans s3, dropTillNl_shape r4⟩
  · rw [matchPat_not_comma rest hc] at h
    exact absurd h (by simp)

theorem reSubAux_nil (fuel : Nat) : reSubAux fuel [] = [] := by
  cases fuel <;> rfl

theorem firstMatchIdx_cons_none {c : Char} {rest : List Char}
    (h : firstMatchIdx (c :: rest) = none) :
    matchPat (c :: rest) = none ∧ firstMatchIdx rest = none := by
  rw [firstMatchIdx] at h
  by_cases hm : (matchPat (c :: rest)).isSome
  · rw [if_pos hm] at h
    exact absurd h (by simp)
  · rw [if_neg hm] at h
    refine ⟨?_, ?_⟩
    · cases hmp : matchPat (c :: rest) with
      | none => rfl
      | some rem => rw [hmp] at hm; simp at hm
    · cases hfi : firstMatchIdx rest with
      | none => rfl
      | some i => rw [hfi] at h; simp at h

theorem reSubAux_nomatch : ∀ (cs : List Char) (fuel : Nat), cs.length ≤ fuel →
    firstMatchIdx cs = none → reSubAux fuel cs = cs := by
  intro cs
  induction cs with
  | nil => intro fuel _ _; exact reSubAux_nil fuel
  | cons c rest ih =>
    intro fuel hf h
    obtain ⟨hm, hrest⟩ := firstMatchIdx_cons_none h
    cases fuel with
    | zero => simp at hf
    | succ f =>
      simp only [reSubAux, hm]
      rw [ih f (by simpa using Nat.succ_le_succ_iff.mp hf) hrest]

theorem reSubAux_match_nonl : ∀ (cs : List Char) (i fuel : Nat),
    cs.length ≤ fuel → (∀ x ∈ cs, x ≠ '\n') → firstMatchIdx cs = some i →
    reSubAux fuel cs = cs.take i := by
  intro cs
  induction cs with
  | nil => intro i fuel _ _ h; exact absurd h (by simp [firstMatchIdx])
  | cons c rest ih =>
    intro i fuel hf hnl h
    cases fuel with
    | zero => simp at hf
    | succ f =>
      cases hmp : matchPat (c :: rest) with
      | some rem =>
        have hi : i = 0 := by
          rw [firstMatchIdx, if_pos (by rw [hmp]; rfl)] at h
          simpa using h.symm
        subst hi
        obtain ⟨hsuf, hshape⟩ := matchPat_some_props c rest rem hmp
        have hrem : rem = [] := by
          rcases hshape with rfl | ⟨t, rfl⟩
          · rfl
          · exact absurd
              (hnl '\n' (List.mem_cons_of_mem c (hsuf.subset (by simp))))
              (by simp)
        subst hrem
        simp only [reSubAux, hmp]
        rw [reSubAux_nil]
        rfl
      | none =>
        rw [firstMatchIdx, if_neg (by rw [hmp]; simp)] at h
        cases hfi : firstMatchIdx rest with
        | none => rw [hfi] at h; simp at h
        | some j =>
          rw [hfi] at h
          simp only [Option.map_some'] at h
          obtain rfl : j + 1 = i := by simpa using h
          simp only [reSubAux, hmp]
          rw [ih j f (by simpa using Nat.succ_le_succ_iff.mp hf)
            (fun x hx => hnl x (List.mem_cons_of_mem c hx)) hfi]
          rfl

/-- C7 counterexample: on an input with a leading space that matches the
Washington-DC pattern, `process_location` additionally trims the kept
prefix, so the result is not "the input with the matched portion removed"
(which would retain the leading space). -/
theorem process_location_trim_cex :
    process_location
        (some " 123 Main St, Washington, District of Columbia 20001")
      = "123 Main St" ∧
    process_location
        (some " 123 Main St, Washington, District of Columbia 20001")
      ≠ " 123 Main St" := by
  constructor
  · decide
  · decide

/-- C7 amended: empty or missing input yields ""; input in which the
Washington-DC pattern matches nowhere is returned trimmed; and for
newline-free input whose leftmost match starts at index `i`,
`process_location` returns the prefix before the match additionally
trimmed of leading and trailing whitespace (the removal itself runs
through the zip code and all trailing text; on input containing newlines
the `.*` stops at the line end and later occurrences are removed too). -/
theorem process_location_amended :
    process_location none = "" ∧ process_location (some "") = "" ∧
    (∀ s : String, firstMatchIdx s.data = none →
      process_location (some s) = pyStrip s) ∧
    (∀ (s : String) (i : Nat), firstMatchIdx s.data = some i →
      (∀ c ∈ s.data, c ≠ '\n') →
      process_location (some s) = pyStrip ⟨s.data.take i⟩) := by
  refine ⟨rfl, rfl, ?_, ?_⟩
  · intro s h
    by_cases hs : s = ""
    · subst hs; rfl
    · show (if s = "" then "" else pyStrip ⟨reSub s.data⟩) = pyStrip s
      rw [if_neg hs,
        show reSub s.data = s.data from
          reSubAux_nomatch s.data s.data.length le_rfl h]
  · intro s i h hnl
    have hs : s ≠ "" := by
      intro hs
      subst hs
      simp [firstMatchIdx] at h
    show (if s = "" then "" else pyStrip ⟨reSub s.data⟩) = _
    rw [if_neg hs,
      show reSub s.data = s.data.take i from
        reSubAux_match_nonl s.data i s.data.length le_rfl hnl h]

/-- Witness for C7 at a concrete matching input: the leftmost match starts
at index 12 and the result is the trimmed prefix before it. -/
theorem process_location_amended_witness :
    process_location
        (some " 123 Main St, Washington, District of Columbia 20001") =
      pyStrip ⟨(" 123 Main St, Washington, District of Columbia 20001" :
        String).data.take 12⟩ :=
  process_location_amended.2.2.2
    " 123 Main St, Washington, District of Columbia 20001" 12 (by decide)
    (by decide)

theorem stripLit_eq (lit : List Char) :
    ∀ cs r : List Char, stripLit lit cs = some r → cs = lit ++ r := by
  induction lit with
  | nil =>
    intro cs r h
    simpa [stripLit] using h
  | cons p ps ih =>
    intro cs r h
    cases cs with
    | nil => exact absurd h (by simp [stripLit])
    | cons c cs' =>
      by_cases hc : c = p
      · subst hc
        rw [stripLit, if_pos rfl] at h
        rw [List.cons_append, ih cs' r h]
      · rw [stripLit, if_neg hc] at h
        exact absurd h (by simp)

theorem stripLit_append (lit r : List Char) : stripLit lit (lit ++ r) = some r := by
  induction lit with
  | nil => rfl
  | cons p ps ih => rw [List.cons_append, stripLit, if_pos rfl, ih]

theorem takeWhile_all_append (id b : List Char)
    (hid : ∀ c ∈ id, idChar c = true)
    (hb : ∀ c, b.head? = some c → idChar c = false) :
    (id ++ b).takeWhile idChar = id := by
  induction id with
  | nil =>
    cases b with
    | nil => rfl
    | cons c t => simp [List.takeWhile_cons, hb c rfl]
  | cons p ps ih =>
    rw [List.cons_append, List.takeWhile_cons, hid p (by simp)]
    rw [ih fun c hc => hid c (by simp [hc])]
    rfl

theorem findTok_skip (trig : Char → Bool) (lit : List Char) :
    ∀ a rest : List Char, (∀ x ∈ a, trig x = false) →
      findTok trig lit (a ++ rest) = findTok trig lit rest := by
  intro a
  induction a with
  | nil => intro rest _; rfl
  | cons x a' ih =>
    intro rest ha
    rw [List.cons_append]
    show (if trig x then _ else findTok trig lit (a' ++ rest)) = _
    rw [ha x (by simp), if_neg (by simp), ih rest fun c hc => ha c (by simp [hc])]

theorem findTok_here (trig : Char → Bool) (lit : List Char) (q : Char)
    (id b : List Char) (hq : trig q = true)
    (hid : ∀ c ∈ id, idChar c = true) (hne : id ≠ [])
    (hb : ∀ c, b.head? = some c → idChar c = false) :
    findTok trig lit (q :: (lit ++ (id ++ b))) = some id := by
  have h1 : (id ++ b).takeWhile idChar = id := takeWhile_all_append id b hid hb
  have h2 : id.isEmpty = false := by
    cases id with
    | nil => exact absurd rfl hne
    | cons _ _ => rfl
  simp only [findTok, stripLit_append, hq]
  simp [h1, h2]

theorem findTok_some_contains (trig : Char → Bool) (lit : List Char) :
    ∀ cs r : List Char, findTok trig lit cs = some r →
      containsTokP trig lit cs := by
  intro cs
  induction cs with
  | nil => intro r h; exact absurd h (by simp [findTok])
  | cons c rest ih =>
    intro r h
    simp only [findTok] at h
    split at h
    · rename_i hc
      split at h
      · rename_i rem hs
        split at h
        · obtain ⟨a, q, c0, b, hcs, hq, hc0⟩ := ih r h
          exact ⟨c :: a, q, c0, b, by simp [hcs], hq, hc0⟩
        · rename_i he
          cases hrem : rem with
          | nil => rw [hrem] at he; exact absurd rfl he
          | cons c0 b0 =>
            have hc0 : idChar c0 = true := by
              by_contra hcc
              rw [hrem, List.takeWhile_cons,
                Bool.eq_false_iff.mpr hcc] at he
              exact he rfl
            refine ⟨[], c, c0, b0, ?_, hc, hc0⟩
            rw [stripLit_eq lit rest rem hs, hrem]
            rfl
      · obtain ⟨a, q, c0, b, hcs, hq, hc0⟩ := ih r h
        exact ⟨c :: a, q, c0, b, by simp [hcs], hq, hc0⟩
    · obtain ⟨a, q, c0, b, hcs, hq, hc0⟩ := ih r h
      exact ⟨c :: a, q, c0, b, by simp [hcs], hq, hc0⟩

theorem findTok_none_of_not_contains (trig : Char → Bool) (lit cs : List Char)
    (h : ¬ containsTokP trig lit cs) : findTok trig lit cs = none := by
  cases hf : findTok trig lit cs with
  | none => rfl
  | some r => exact absurd (findTok_some_contains trig lit cs r hf) h

theorem findTok_no_trig (trig : Char → Bool) (lit cs : List Char)
    (h : ∀ x ∈ cs, trig x = false) : findTok trig lit cs = none := by
  have hskip := findTok_skip trig lit cs [] h
  rw [List.append_nil] at hskip
  rw [hskip]
  rfl

theorem extract_idparam_pos (s : String) (a id b : List Char) (q : Char)
    (hclean : cleanUrl s = s)
    (hdecomp : s.data = a ++ q :: ('i' :: 'd' :: '=' :: (id ++ b)))
    (hq : q = '?' ∨ q = '&')
    (ha : ∀ c ∈ a, c ≠ '?' ∧ c ≠ '&')
    (hne : id ≠ []) (hidc : ∀ c ∈ id, idChar c = true)
    (hb : ∀ c, b.head? = some c → idChar c = false) :
    extract_file_id s = some ⟨id⟩ := by
  have hfind : findIdParam s.data = some id := by
    rw [hdecomp]
    show findTok _ _ (a ++ (q :: (['i', 'd', '='] ++ (id ++ b)))) = some id
    rw [findTok_skip _ _ a _ fun x hx => by
      obtain ⟨h1, h2⟩ := ha x hx
      simp [h1, h2]]
    exact findTok_here _ _ q id b (by rcases hq with rfl | rfl <;> rfl)
      hidc hne hb
  unfold extract_file_id
  rw [hclean, hfind]

/-- C8: the file-id extraction of `get_image_from_url` yields "ABC123" on
both observed reference shapes; in general, after cleaning (strip plus one
leading `@`), the leftmost `[?&]id=<run>` occurrence yields its maximal
id-character run, the leftmost `/d/<run>` occurrence yields its run when
no query-parameter shape is present, and a reference containing neither
shape yields `none` rather than an error. -/
theorem extract_reference_id_spec :
    extract_file_id "https://host/open?id=ABC123" = some "ABC123" ∧
    extract_file_id "https://host/file/d/ABC123/view" = some "ABC123" ∧
    (∀ s : String,
      ¬ containsTokP (fun c => c = '?' || c = '&') ['i', 'd', '=']
        (cleanUrl s).data →
      ¬ containsTokP (fun c => c = '/') ['d', '/'] (cleanUrl s).data →
      extract_file_id s = none) ∧
    (∀ (s : String) (a id b : List Char) (q : Char), cleanUrl s = s →
      s.data = a ++ q :: ('i' :: 'd' :: '=' :: (id ++ b)) →
      (q = '?' ∨ q = '&') →
      (∀ c ∈ a, c ≠ '?' ∧ c ≠ '&') → id ≠ [] →
      (∀ c ∈ id, idChar c = true) →
      (∀ c, b.head? = some c → idChar c = false) →
      extract_file_id s = some ⟨id⟩) ∧
    (∀ (s : String) (a id b : List Char), cleanUrl s = s →
      s.data = a ++ '/' :: ('d' :: '/' :: (id ++ b)) →
      (∀ c ∈ s.data, c ≠ '?' ∧ c ≠ '&') → (∀ c ∈ a, c ≠ '/') →
      id ≠ [] → (∀ c ∈ id, idChar c = true) →
      (∀ c, b.head? = some c → idChar c = false) →
      extract_file_id s = some ⟨id⟩) := by
  refine ⟨by decide, by decide, ?_, ?_, ?_⟩
  · intro s h1 h2
    unfold extract_file_id findIdParam findDSeg
    rw [findTok_none_of_not_contains _ _ _ h1,
      findTok_none_of_not_contains _ _ _ h2]
    rfl
  · exact fun s a id b q h1 h2 h3 h4 h5 h6 h7 =>
      extract_idparam_pos s a id b q h1 h2 h3 h4 h5 h6 h7
  · intro s a id b hclean hdecomp hnoq ha hne hidc hb
    have hidp : findIdParam s.data = none := by
      unfold findIdParam
      exact findTok_no_trig _ _ _ fun x hx => by
        obtain ⟨l1, l2⟩ := hnoq x hx
        simp [l1, l2]
    have hdsg : findDSeg s.data = some id := by
      unfold findDSeg
      rw [hdecomp]
      show findTok _ _ (a ++ ('/' :: (['d', '/'] ++ (id ++ b)))) = some id
      rw [findTok_skip _ _ a _ fun x hx => by simp [ha x hx]]
      exact findTok_here _ _ '/' id b rfl hidc hne hb
    unfold extract_file_id
    rw [hclean, hidp, hdsg]
    rfl

/-- Witness for C8: the query-parameter clause applied at the concrete
reference `https://host/open?id=ABC123`. -/
theorem extract_reference_id_spec_witness :
    extract_file_id "https://host/open?id=ABC123" = some "ABC123" :=
  extract_reference_id_spec.2.2.2.1 "https://host/open?id=ABC123"
    "https://host/open".data "ABC123".data [] '?' (by decide) (by decide)
    (Or.inl rfl) (by decide) (by decide) (by decide)
    (fun _ hc => nomatch hc)

/-- C10: on a reference containing both an `id=` query parameter and a
`/d/` path segment, the extraction returns the query-parameter id - the
query shape is tried first and takes priority. -/
theorem extract_id_priority (s : String) (a id1 b : List Char) (q : Char)
    (_hd : containsTokP (fun c => c = '/') ['d', '/'] s.data)
    (hclean : cleanUrl s = s)
    (hdecomp : s.data = a ++ q :: ('i' :: 'd' :: '=' :: (id1 ++ b)))
    (hq : q = '?' ∨ q = '&')
    (ha : ∀ c ∈ a, c ≠ '?' ∧ c ≠ '&')
    (hne : id1 ≠ []) (hidc : ∀ c ∈ id1, idChar c = true)
    (hb : ∀ c, b.head? = some c → idChar c = false) :
    extract_file_id s = some ⟨id1⟩ :=
  extract_idparam_pos s a id1 b q hclean hdecomp hq ha hne hidc hb

/-- Witness for C10 at `https://host/file/d/XYZ/view?id=ABC`, which holds
both shapes: the result is the query-parameter id "ABC", not "XYZ". -/
theorem extract_id_priority_witness :
    extract_file_id "https://host/file/d/XYZ/view?id=ABC" = some "ABC" :=
  extract_id_priority "https://host/file/d/XYZ/view?id=ABC"
    "https://host/file/d/XYZ/view".data "ABC".data [] '?'
    ⟨"https://host/file".data, '/', 'X', "YZ/view?id=ABC".data,
      by decide, rfl, by decide⟩
    (by decide) (by decide) (Or.inl rfl) (by decide) (by decide) (by decide)
    (fun _ hc => nomatch hc)

theorem patMatchAt_no_dot (ps : List Char) (hps : ∀ p ∈ ps, p ≠ '.') :
    ∀ cs : List Char, patMatchAt ps cs = isPrefixOfL ps (cs.map Char.toLower) := by
  induction ps with
  | nil => intro cs; rfl
  | cons p ps ih =>
    intro cs
    cases cs with
    | nil => rfl
    | cons c cs' =>
      have hp : p ≠ '.' := hps p (by simp)
      show (patCharMatch p c && patMatchAt ps cs') = _
      rw [patCharMatch, if_neg hp, ih (fun x hx => hps x (by simp [hx])) cs']
      show (decide (Char.toLower c = p) && _) = (decide (p = Char.toLower c) && _)
      have hswap : decide (p = Char.toLower c) = decide (Char.toLower c = p) :=
        decide_eq_decide.mpr eq_comm
      rw [hswap]

theorem reSearch_no_dot (ps : List Char) (hps : ∀ p ∈ ps, p ≠ '.') :
    ∀ cs : List Char, reSearch ps cs = containsSubL ps (cs.map Char.toLower) := by
  intro cs
  induction cs with
  | nil => exact patMatchAt_no_dot ps hps []
  | cons c cs' ih =>
    show (patMatchAt ps (c :: cs') || reSearch ps cs') = _
    rw [patMatchAt_no_dot ps hps (c :: cs'), ih]
    rfl

theorem str_contains_regex_literal (s name : String)
    (hno : ∀ c ∈ (pyLower name).data, c ≠ '.') :
    str_contains_regex s (pyLower name) = containsSubstringCI s name := by
  show reSearch (pyLower name).data s.data = _
  rw [reSearch_no_dot (pyLower name).data hno s.data]
  rfl

/-- C9 counterexample: `filter_by_subcontractor` hands the name to a
regular-expression search (`str.contains` with the pandas default
`regex=True`), so the name "." matches the row named "x" even though "."
is not a substring of "x" - the claimed literal-substring semantics fails. -/
theorem filter_by_subcontractor_regex_cex :
    (filter_by_subcontractor [rowX] ".").2 = [rowX] ∧
    containsSubstringCI "x" "." = false := by
  constructor
  · decide
  · decide

/-- C9 amended: `filter_by_subcontractor` hands the lower-cased name to a
case-insensitive regular-expression search; for a name free of regex
metacharacters (no `regexMeta` character and no ".") this coincides with
case-insensitive substring containment; for well-formed names (no
`regexMeta` character; "." allowed) rows with a missing `Name` are
excluded without raising; and the filter gives identical results for
"frank" and "FRANK". -/
theorem filter_by_subcontractor_amended :
    (∀ (rows : List Row) (name : String),
      (∀ c ∈ (pyLower name).data, regexMeta c = false ∧ c ≠ '.') →
      ∀ r : Row, r ∈ (filter_by_subcontractor rows name).2 ↔
        r ∈ rows ∧ ∃ s, r.name = some s ∧ containsSubstringCI s name = true) ∧
    (∀ rows : List Row, (filter_by_subcontractor rows "frank").2 =
      (filter_by_subcontractor rows "FRANK").2) ∧
    (∀ (rows : List Row) (name : String) (r : Row),
      (∀ c ∈ (pyLower name).data, regexMeta c = false) →
      r ∈ (filter_by_subcontractor rows name).2 → r.name ≠ none) := by
  refine ⟨?_, ?_, ?_⟩
  · intro rows name hno r
    show r ∈ rows.filter _ ↔ _
    rw [List.mem_filter]
    refine and_congr_right fun _ => ?_
    cases hn : r.name with
    | none => simp [hn]
    | some s =>
      simp only [hn, Option.some.injEq]
      rw [str_contains_regex_literal s name fun c hc => (hno c hc).2]
      constructor
      · intro h; exact ⟨s, rfl, h⟩
      · rintro ⟨s', rfl, h⟩; exact h
  · intro rows
    show rows.filter _ = rows.filter _
    have h : pyLower "FRANK" = pyLower "frank" := by decide
    simp only [h]
  · intro rows name r _ hr
    show r.name ≠ none
    have := (List.mem_filter.mp hr).2
    intro hn
    rw [hn] at this
    exact absurd this (by simp)

/-- Witness for C9: the literal-substring clause applied to the single
row named "x" and the metacharacter-free name "X". -/
theorem filter_by_subcontractor_amended_witness :
    rowX ∈ (filter_by_subcontractor [rowX] "X").2 ↔
      rowX ∈ [rowX] ∧ ∃ s, rowX.name = some s ∧
        containsSubstringCI s "X" = true :=
  filter_by_subcontractor_amended.1 [rowX] "X" (by decide) rowX
